import Mathlib

/-!
Verification of the block-header RLP brute-force reconstructor of
`packages/scripts/src/solveChallenge12.ts`.

The TypeScript helpers `toFieldBytes` and `toNonceBytes`, the viem encoding
helpers they invoke (`hexToBytes`, `toRlp`, `TextEncoder`), and the candidate
search of `bruteforceRLP` are embedded as executable Lean functions.  Byte
strings are `List Nat` (each entry < 256 for well-formed data), JavaScript
exceptions are `Except String`, and `keccak256` is an abstract parameter of
the search, since none of the verified properties depend on the internals of
the hash function.
-/

namespace Solve12

/-- A JavaScript value that may be passed to `toFieldBytes`: `undefined`/`null`,
a `bigint`/`number` (an integer), a string, or a `Uint8Array`. -/
inductive FieldValue where
  | undef : FieldValue
  | int (n : Int) : FieldValue
  | str (s : String) : FieldValue
  | bytes (b : List Nat) : FieldValue
deriving DecidableEq

instance {ε α : Type} [DecidableEq ε] [DecidableEq α] : DecidableEq (Except ε α) := fun a b =>
  match a, b with
  | .ok x, .ok y =>
    if h : x = y then .isTrue (by rw [h]) else .isFalse (by intro he; cases he; exact h rfl)
  | .error x, .error y =>
    if h : x = y then .isTrue (by rw [h]) else .isFalse (by intro he; cases he; exact h rfl)
  | .ok _, .error _ => .isFalse (by intro he; cases he)
  | .error _, .ok _ => .isFalse (by intro he; cases he)

/-- Value of one hexadecimal digit character, as in viem's `charCodeToBase16`:
digits, lowercase and uppercase letters are accepted, anything else is an
invalid byte-sequence error. -/
def hexDigitVal (c : Char) : Option Nat :=
  if 48 ≤ c.toNat ∧ c.toNat ≤ 57 then some (c.toNat - 48)
  else if 97 ≤ c.toNat ∧ c.toNat ≤ 102 then some (c.toNat - 87)
  else if 65 ≤ c.toNat ∧ c.toNat ≤ 70 then some (c.toNat - 55)
  else none

/-- Parse an even-length run of hex digit characters into bytes, two digits per
byte, as the loop of viem's `hexToBytes` does.  An odd-length input (which the
caller prevents by padding) or an invalid digit yields `none`. -/
def parseHexPairs : List Char → Option (List Nat)
  | [] => some []
  | [_] => none
  | a :: b :: rest =>
    match hexDigitVal a, hexDigitVal b, parseHexPairs rest with
    | some va, some vb, some r => some ((16 * va + vb) :: r)
    | _, _, _ => none

/-- Left-pad a hex digit string with one zero digit when its length is odd,
as both viem's `hexToBytes` and `toFieldBytes`'s numeric branch do. -/
def padEvenChars (l : List Char) : List Char :=
  if l.length % 2 = 1 then '0' :: l else l

/-- viem's `hexToBytes`: drop the two characters of the `0x` prefix, pad to an
even number of digits, and parse hex digit pairs. -/
def hexToBytes (s : String) : Option (List Nat) :=
  parseHexPairs (padEvenChars (s.data.drop 2))

/-- UTF-8 encoding of one Unicode code point, as `TextEncoder` produces. -/
def utf8EncodeCharNat (c : Nat) : List Nat :=
  if c < 128 then [c]
  else if c < 2048 then [192 + c / 64, 128 + c % 64]
  else if c < 65536 then [224 + c / 4096, 128 + (c / 64) % 64, 128 + c % 64]
  else [240 + c / 262144, 128 + (c / 4096) % 64, 128 + (c / 64) % 64, 128 + c % 64]

/-- `new TextEncoder().encode(s)`: UTF-8 bytes of a string. -/
def utf8Encode (s : String) : List Nat :=
  s.data.flatMap (fun c => utf8EncodeCharNat c.toNat)

/-- The test `value.startsWith('0x')` of `toFieldBytes`. -/
def startsWith0x (s : String) : Bool :=
  match s.data with
  | '0' :: 'x' :: _ => true
  | _ => false

/-- `toFieldBytes` of `solveChallenge12.ts`: normalize a block-header field
value to its byte-string form.  `undefined`/`null` and negative integers throw;
the integer zero and the strings `""`, `"0x"`, `"0x0"`, `"0x00"` give the empty
byte string; a positive integer is printed as minimal hex (`toString(16)`),
padded to an even number of digits and parsed back to bytes; other `0x`
strings go through `hexToBytes`; other strings are UTF-8 encoded; a
`Uint8Array` is returned as is. -/
def toFieldBytes : FieldValue → Except String (List Nat)
  | .undef => .error "Undefined value passed to toFieldBytes"
  | .int n =>
    if n = 0 then .ok []
    else if n < 0 then .error "Negative values not supported"
    else
      match hexToBytes (String.mk ('0' :: 'x' :: padEvenChars (Nat.toDigits 16 n.toNat))) with
      | some bs => .ok bs
      | none => .error "Invalid byte sequence"
  | .str s =>
    if s = "" ∨ s = "0x" ∨ s = "0x0" ∨ s = "0x00" then .ok []
    else if startsWith0x s then
      match hexToBytes s with
      | some bs => .ok bs
      | none => .error "Invalid byte sequence"
    else .ok (utf8Encode s)
  | .bytes b => .ok b

/-- `toNonceBytes` of `solveChallenge12.ts`: convert a nonce to exactly eight
bytes.  A missing, empty or all-zero nonce yields eight zero bytes; otherwise
the hex bytes are left-padded with zeros up to eight bytes, or truncated to
their first eight bytes. -/
def toNonceBytes (nonce : Option String) : Except String (List Nat) :=
  match nonce with
  | none =>
    match hexToBytes "0x0000000000000000" with
    | some bs => .ok bs
    | none => .error "Invalid byte sequence"
  | some s =>
    if s = "" ∨ s = "0x0000000000000000" then
      match hexToBytes "0x0000000000000000" with
      | some bs => .ok bs
      | none => .error "Invalid byte sequence"
    else
      match hexToBytes s with
      | none => .error "Invalid byte sequence"
      | some bs =>
        if bs.length = 8 then .ok bs
        else if bs.length < 8 then .ok (List.replicate (8 - bs.length) 0 ++ bs)
        else .ok (bs.take 8)

/-- Minimal big-endian base-256 digits of a natural number; `0` maps to the
empty list.  Used both for RLP length prefixes and as the canonical-form
specification that `toFieldBytes`'s numeric branch is proved to satisfy. -/
def natToBEBytes (n : Nat) : List Nat :=
  if h : n = 0 then [] else natToBEBytes (n / 256) ++ [n % 256]
decreasing_by exact Nat.div_lt_self (Nat.pos_of_ne_zero h) (by norm_num)

/-- The big-endian value of a byte string. -/
def beValue (l : List Nat) : Nat :=
  l.foldl (fun a b => 256 * a + b) 0

/-- RLP encoding of one byte-string item, as viem's `toRlp` computes it. -/
def rlpItem (b : List Nat) : List Nat :=
  match b with
  | [x] => if x < 128 then [x] else [129, x]
  | _ =>
    if b.length ≤ 55 then (128 + b.length) :: b
    else (183 + (natToBEBytes b.length).length) :: (natToBEBytes b.length ++ b)

/-- RLP encoding of a flat list of byte-string items, as `toRlp(headerList)`
computes it. -/
def rlpList (items : List (List Nat)) : List Nat :=
  let payload := (items.map rlpItem).flatten
  if payload.length ≤ 55 then (192 + payload.length) :: payload
  else (247 + (natToBEBytes payload.length).length) :: (natToBEBytes payload.length ++ payload)

/-- The optional-field bytes included by an inclusion-pattern bitmask, bit `i`
of `mask` selecting the field at position `i0 + i`: the inner loop of the
candidate construction in `bruteforceRLP`. -/
def includedBytesAux (mask : Nat) : List (String × FieldValue) → Nat → Except String (List (List Nat))
  | [], _ => .ok []
  | f :: rest, i =>
    if mask &&& (1 <<< i) ≠ 0 then
      match toFieldBytes f.2 with
      | .error e => .error e
      | .ok b =>
        match includedBytesAux mask rest (i + 1) with
        | .error e => .error e
        | .ok bs => .ok (b :: bs)
    else includedBytesAux mask rest (i + 1)

/-- Bytes of the optional fields selected by `mask`, in their canonical order. -/
def includedBytes (opts : List (String × FieldValue)) (mask : Nat) : Except String (List (List Nat)) :=
  includedBytesAux mask opts 0

/-- Names of the optional fields selected by `mask`: the `included` list that
`bruteforceRLP` reports on its console for a matching candidate. -/
def includedNamesAux (mask : Nat) : List (String × FieldValue) → Nat → List String
  | [], _ => []
  | f :: rest, i =>
    if mask &&& (1 <<< i) ≠ 0 then f.1 :: includedNamesAux mask rest (i + 1)
    else includedNamesAux mask rest (i + 1)

/-- Names of the optional fields selected by `mask`. -/
def includedNames (opts : List (String × FieldValue)) (mask : Nat) : List String :=
  includedNamesAux mask opts 0

/-- Whether the candidate for `mask` is a hit: its optional fields all encode
and the keccak hash of the RLP-encoded field list equals the target hash.
This is exactly the guard of the two search loops of `bruteforceRLP`. -/
def hitMask (keccak : List Nat → List Nat) (target : List Nat) (base : List (List Nat))
    (opts : List (String × FieldValue)) (mask : Nat) : Bool :=
  match includedBytes opts mask with
  | .ok incl => keccak (rlpList (base ++ incl)) == target
  | .error _ => false

/-- Run the candidate loop body of `bruteforceRLP` over a list of masks in
order, returning the first matching RLP encoding together with the list of
masks actually attempted, or `none` with all masks attempted. -/
def tryMasksGo (keccak : List Nat → List Nat) (target : List Nat) (base : List (List Nat))
    (opts : List (String × FieldValue)) : List Nat → Except String (Option (List Nat) × List Nat)
  | [] => .ok (none, [])
  | m :: ms =>
    match includedBytes opts m with
    | .error e => .error e
    | .ok incl =>
      if keccak (rlpList (base ++ incl)) = target then .ok (some (rlpList (base ++ incl)), [m])
      else
        match tryMasksGo keccak target base opts ms with
        | .error e => .error e
        | .ok (r, ats) => .ok (r, m :: ats)

/-- The fast-path masks of `bruteforceRLP`: the base-fee-only mask when
`baseFeePerGas` is among the available optional fields, then the
all-fields-present mask when there is more than one combination. -/
def priorityMasks (opts : List (String × FieldValue)) : List Nat :=
  (if opts.any (fun f => f.1 == "baseFeePerGas") then
    [1 <<< opts.findIdx (fun f => f.1 == "baseFeePerGas")]
  else []) ++
  (if 1 < 2 ^ opts.length then [2 ^ opts.length - 1] else [])

/-- The overall order in which `bruteforceRLP` attempts inclusion-pattern
masks: the priority masks first, then every mask below `2 ^ k` in increasing
order, skipping the masks already attempted. -/
def searchOrder (opts : List (String × FieldValue)) : List Nat :=
  priorityMasks opts ++
    (List.range (2 ^ opts.length)).filter (fun m => !((priorityMasks opts).contains m))

/-- The candidate search of `bruteforceRLP` (its two loops over masks), as a
pure function of the hash function, target hash, mandatory-field bytes and
available optional fields.  Returns the first matching RLP encoding (or `none`)
together with the attempted masks. -/
def bruteforceSearch (keccak : List Nat → List Nat) (target : List Nat) (base : List (List Nat))
    (opts : List (String × FieldValue)) : Except String (Option (List Nat) × List Nat) :=
  tryMasksGo keccak target base opts (searchOrder opts)

/-- The block data `bruteforceRLP` reads from the fetched block: the target
hash, the fifteen mandatory header fields (some defaulted when absent), and
the six recognised optional fields, each present or absent. -/
structure BlockData where
  hash : List Nat
  parentHash : FieldValue
  sha3Uncles : Option FieldValue
  miner : Option FieldValue
  coinbase : Option FieldValue
  stateRoot : FieldValue
  transactionsRoot : FieldValue
  receiptsRoot : FieldValue
  logsBloom : Option String
  difficulty : Option FieldValue
  number : FieldValue
  gasLimit : FieldValue
  gasUsed : FieldValue
  timestamp : FieldValue
  extraData : Option FieldValue
  mixHash : Option FieldValue
  nonce : Option String
  baseFeePerGas : Option FieldValue
  withdrawalsRoot : Option FieldValue
  blobGasUsed : Option FieldValue
  excessBlobGas : Option FieldValue
  parentBeaconBlockRoot : Option FieldValue
  requestsHash : Option FieldValue

/-- The ordered list of available optional fields, exactly as `bruteforceRLP`
pushes them: base fee, withdrawals root, blob gas used, excess blob gas,
parent beacon block root, requests hash — each only when present. -/
def availableOptionalFields (b : BlockData) : List (String × FieldValue) :=
  (match b.baseFeePerGas with | some v => [("baseFeePerGas", v)] | none => []) ++
  (match b.withdrawalsRoot with | some v => [("withdrawalsRoot", v)] | none => []) ++
  (match b.blobGasUsed with | some v => [("blobGasUsed", v)] | none => []) ++
  (match b.excessBlobGas with | some v => [("excessBlobGas", v)] | none => []) ++
  (match b.parentBeaconBlockRoot with | some v => [("parentBeaconBlockRoot", v)] | none => []) ++
  (match b.requestsHash with | some v => [("requestsHash", v)] | none => [])

/-- `logsBloom.replace(/\s+/g, '')`: remove all whitespace. -/
def stripWs (s : String) : String :=
  String.mk (s.data.filter (fun c => !c.isWhitespace))

/-- The logs-bloom preprocessing of `bruteforceRLP`: when the bloom is present
and non-empty, strip whitespace, parse it as hex bytes and require exactly 256
bytes, raising a hard error otherwise; the (possibly stripped) bloom value is
what the mandatory fields later encode. -/
def processBloom (b : BlockData) : Except String (Option String) :=
  match b.logsBloom with
  | none => .ok none
  | some s =>
    if s = "" then .ok (some s)
    else
      match hexToBytes (stripWs s) with
      | none => .error "Invalid byte sequence"
      | some bloomBytes =>
        if bloomBytes.length ≠ 256 then
          .error ("Invalid logsBloom length: " ++ toString bloomBytes.length ++ ", expected 256")
        else .ok (some (stripWs s))

/-- The fifteen mandatory header fields of `bruteforceRLP`, in order, with the
same defaults for absent values (`??` in the source), each normalized by
`toFieldBytes`, and the nonce by `toNonceBytes`. -/
def mkBaseFields (b : BlockData) (bloom : Option String) : Except String (List (List Nat)) := do
  let f1 ← toFieldBytes b.parentHash
  let f2 ← toFieldBytes (b.sha3Uncles.getD
    (.str "0x1dcc4de8dec75d7aab85b567b6ccd41ad312451b948a7413f0a142fd40d49347"))
  let f3 ← toFieldBytes ((b.miner.orElse (fun _ => b.coinbase)).getD
    (.str "0x4200000000000000000000000000000000000011"))
  let f4 ← toFieldBytes b.stateRoot
  let f5 ← toFieldBytes b.transactionsRoot
  let f6 ← toFieldBytes b.receiptsRoot
  let f7 ← toFieldBytes (match bloom with | some s => .str s | none => .undef)
  let f8 ← toFieldBytes (b.difficulty.getD (.int 0))
  let f9 ← toFieldBytes b.number
  let f10 ← toFieldBytes b.gasLimit
  let f11 ← toFieldBytes b.gasUsed
  let f12 ← toFieldBytes b.timestamp
  let f13 ← toFieldBytes (b.extraData.getD (.str "0x"))
  let f14 ← toFieldBytes (b.mixHash.getD
    (.str "0x0000000000000000000000000000000000000000000000000000000000000000"))
  let f15 ← toNonceBytes (some (b.nonce.getD "0x0000000000000000"))
  .ok [f1, f2, f3, f4, f5, f6, f7, f8, f9, f10, f11, f12, f13, f14, f15]

/-- `bruteforceRLP` after the block fetch, with the attempted masks exposed:
check the logs bloom, build the mandatory fields, then run the candidate
search over the search order. -/
def bruteforceRLPFull (keccak : List Nat → List Nat) (b : BlockData) :
    Except String (Option (List Nat) × List Nat) :=
  match processBloom b with
  | .error e => .error e
  | .ok bloom =>
    match mkBaseFields b bloom with
    | .error e => .error e
    | .ok base => bruteforceSearch keccak b.hash base (availableOptionalFields b)

/-- `bruteforceRLP` after the block fetch: the returned value only (the RLP
encoding on success, `none` when no combination matches). -/
def bruteforceRLP (keccak : List Nat → List Nat) (b : BlockData) :
    Except String (Option (List Nat)) :=
  (bruteforceRLPFull keccak b).map Prod.fst

/-! ## Hexadecimal printing and parsing -/

/-- Specification-side recursion for minimal lowercase hex digits of `n`
(empty for `n = 0`), used to reason about `Nat.toDigits 16`. -/
def specHexChars (n : Nat) : List Char :=
  if h : n = 0 then [] else specHexChars (n / 16) ++ [Nat.digitChar (n % 16)]
decreasing_by exact Nat.div_lt_self (Nat.pos_of_ne_zero h) (by norm_num)

theorem specHexChars_zero : specHexChars 0 = [] := by
  rw [specHexChars]
  simp

theorem specHexChars_pos {n : Nat} (h : n ≠ 0) :
    specHexChars n = specHexChars (n / 16) ++ [Nat.digitChar (n % 16)] := by
  rw [specHexChars]
  simp [h]

theorem natToBEBytes_zero : natToBEBytes 0 = [] := by
  rw [natToBEBytes]
  simp

theorem natToBEBytes_pos {n : Nat} (h : n ≠ 0) :
    natToBEBytes n = natToBEBytes (n / 256) ++ [n % 256] := by
  rw [natToBEBytes]
  simp [h]

theorem toDigitsCore_eq_specHexChars :
    ∀ (fuel n : Nat) (ds : List Char), n < fuel →
      Nat.toDigitsCore 16 fuel n ds = (if n = 0 then [Nat.digitChar 0] else specHexChars n) ++ ds
  | 0, _, _, h => absurd h (Nat.not_lt_zero _)
  | fuel + 1, n, ds, h => by
    rw [Nat.toDigitsCore]
    by_cases hn : n = 0
    · subst hn
      simp
    · simp only [if_neg hn]
      by_cases hq : n / 16 = 0
      · simp only [hq, if_pos rfl]
        rw [specHexChars_pos hn, hq, specHexChars_zero]
        simp
      · simp only [if_neg hq]
        have hlt : n / 16 < fuel := by
          have h1 : n / 16 < n := Nat.div_lt_self (Nat.pos_of_ne_zero hn) (by norm_num)
          omega
        rw [toDigitsCore_eq_specHexChars fuel (n / 16) _ hlt, if_neg hq,
          specHexChars_pos hn]
        simp

theorem toDigits16_eq_specHexChars {n : Nat} (h : n ≠ 0) :
    Nat.toDigits 16 n = specHexChars n := by
  rw [Nat.toDigits, toDigitsCore_eq_specHexChars (n + 1) n [] (Nat.lt_succ_self n), if_neg h]
  simp

theorem padEvenChars_length_even (l : List Char) : (padEvenChars l).length % 2 = 0 := by
  unfold padEvenChars
  by_cases h : l.length % 2 = 1 <;> simp [h] <;> omega

theorem padEvenChars_of_even {l : List Char} (h : l.length % 2 = 0) : padEvenChars l = l := by
  unfold padEvenChars
  simp [h]

theorem padEvenChars_idem (l : List Char) : padEvenChars (padEvenChars l) = padEvenChars l :=
  padEvenChars_of_even (padEvenChars_length_even l)

theorem padEvenChars_append_pair (l : List Char) (a b : Char) :
    padEvenChars (l ++ [a, b]) = padEvenChars l ++ [a, b] := by
  unfold padEvenChars
  by_cases h : l.length % 2 = 1 <;> simp [h]

theorem parseHexPairs_append_pair (a b : Char) :
    ∀ l : List Char, l.length % 2 = 0 →
      parseHexPairs (l ++ [a, b]) =
        match parseHexPairs l, hexDigitVal a, hexDigitVal b with
        | some r, some va, some vb => some (r ++ [16 * va + vb])
        | _, _, _ => none
  | [], _ => by
    cases hva : hexDigitVal a <;> cases hvb : hexDigitVal b <;>
      simp [parseHexPairs, hva, hvb]
  | [_], h => by simp at h
  | x :: y :: rest, h => by
    have hrest : rest.length % 2 = 0 := by simp at h; omega
    have ih := parseHexPairs_append_pair a b rest hrest
    show parseHexPairs (x :: y :: (rest ++ [a, b])) = _
    rw [parseHexPairs, ih]
    cases hvx : hexDigitVal x <;> cases hvy : hexDigitVal y <;>
      cases hr : parseHexPairs rest <;> cases hva : hexDigitVal a <;>
      cases hvb : hexDigitVal b <;> simp [parseHexPairs, hvx, hvy, hr, hva, hvb]

theorem hexDigitVal_digitChar {d : Nat} (h : d < 16) :
    hexDigitVal (Nat.digitChar d) = some d := by
  interval_cases d <;> decide

theorem parseHexPairs_padEven_specHexChars (n : Nat) :
    parseHexPairs (padEvenChars (specHexChars n)) = some (natToBEBytes n) := by
  induction n using Nat.strong_induction_on with
  | _ n ih =>
    have hv0 : hexDigitVal '0' = some 0 := by decide
    by_cases h0 : n = 0
    · subst h0
      rw [specHexChars_zero, natToBEBytes_zero]
      decide
    · by_cases h16 : n < 16
      · rw [specHexChars_pos h0, Nat.div_eq_of_lt h16, specHexChars_zero,
          Nat.mod_eq_of_lt h16]
        have hpad : padEvenChars (([] : List Char) ++ [Nat.digitChar n]) =
            ['0', Nat.digitChar n] := by
          unfold padEvenChars
          simp
        rw [hpad]
        rw [natToBEBytes_pos h0, Nat.div_eq_of_lt (by omega), natToBEBytes_zero,
          Nat.mod_eq_of_lt (by omega)]
        simp [parseHexPairs, hv0, hexDigitVal_digitChar h16]
      · by_cases h256 : n < 256
        · have hq0 : n / 16 ≠ 0 := by omega
          have hqlt : n / 16 < 16 := by omega
          rw [specHexChars_pos h0, specHexChars_pos hq0, Nat.div_div_eq_div_mul,
            Nat.mod_eq_of_lt hqlt]
          have h2560 : n / (16 * 16) = 0 := Nat.div_eq_of_lt (by omega)
          rw [h2560, specHexChars_zero]
          rw [natToBEBytes_pos h0, Nat.div_eq_of_lt (show n < 256 by omega),
            natToBEBytes_zero, Nat.mod_eq_of_lt (show n < 256 by omega)]
          have hpad : padEvenChars (([] : List Char) ++ [Nat.digitChar (n / 16)] ++
              [Nat.digitChar (n % 16)]) =
              [Nat.digitChar (n / 16), Nat.digitChar (n % 16)] := by
            unfold padEvenChars
            simp
          rw [hpad]
          simp only [parseHexPairs, hexDigitVal_digitChar hqlt,
            hexDigitVal_digitChar (Nat.mod_lt n (by norm_num))]
          simp only [List.nil_append, Option.some.injEq, List.cons.injEq, and_true]
          omega
        · have hq0 : n / 16 ≠ 0 := by omega
          have hsplit : specHexChars n =
              specHexChars (n / 256) ++
                [Nat.digitChar (n / 16 % 16), Nat.digitChar (n % 16)] := by
            rw [specHexChars_pos h0, specHexChars_pos hq0, Nat.div_div_eq_div_mul]
            norm_num [List.append_assoc]
          rw [hsplit, padEvenChars_append_pair,
            parseHexPairs_append_pair _ _ _ (padEvenChars_length_even _)]
          rw [natToBEBytes_pos h0]
          have hdm : 16 * (n / 16 % 16) + n % 16 = n % 256 := by omega
          simp only [ih (n / 256) (Nat.div_lt_self (by omega) (by norm_num)),
            hexDigitVal_digitChar (Nat.mod_lt (n / 16) (by norm_num)),
            hexDigitVal_digitChar (Nat.mod_lt n (by norm_num)), hdm]

theorem toFieldBytes_int_pos (n : Nat) (hn : 0 < n) :
    toFieldBytes (.int (n : Int)) = .ok (natToBEBytes n) := by
  have hne : (n : Int) ≠ 0 := by
    simpa using (by omega : n ≠ 0)
  have hnneg : ¬((n : Int) < 0) := (Int.natCast_nonneg n).not_lt
  show toFieldBytes (.int (n : Int)) = _
  rw [toFieldBytes]
  rw [if_neg hne, if_neg hnneg]
  have htn : (n : Int).toNat = n := Int.toNat_natCast n
  rw [htn]
  rw [toDigits16_eq_specHexChars (by omega)]
  have hhex : hexToBytes (String.mk ('0' :: 'x' :: padEvenChars (specHexChars n))) =
      some (natToBEBytes n) := by
    show parseHexPairs (padEvenChars ((('0' :: 'x' :: padEvenChars (specHexChars n)) : List Char).drop 2)) = _
    show parseHexPairs (padEvenChars (padEvenChars (specHexChars n))) = _
    rw [padEvenChars_idem]
    exact parseHexPairs_padEven_specHexChars n
  rw [hhex]

theorem natToBEBytes_ne_nil {n : Nat} (h : n ≠ 0) : natToBEBytes n ≠ [] := by
  rw [natToBEBytes_pos h]
  simp

theorem natToBEBytes_head_ne_zero {n : Nat} (h : n ≠ 0) :
    (natToBEBytes n).head? ≠ some 0 := by
  induction n using Nat.strong_induction_on with
  | _ n ih =>
    by_cases h256 : n < 256
    · rw [natToBEBytes_pos h, Nat.div_eq_of_lt h256, natToBEBytes_zero,
        Nat.mod_eq_of_lt h256]
      simp
      omega
    · have hq : n / 256 ≠ 0 := by omega
      rw [natToBEBytes_pos h]
      obtain ⟨x, xs, hx⟩ := List.exists_cons_of_ne_nil (natToBEBytes_ne_nil hq)
      have := ih (n / 256) (Nat.div_lt_self (by omega) (by norm_num)) hq
      rw [hx] at this ⊢
      simpa using this

theorem beValue_append_byte (l : List Nat) (b : Nat) :
    beValue (l ++ [b]) = 256 * beValue l + b := by
  unfold beValue
  rw [List.foldl_append]
  rfl

theorem beValue_natToBEBytes (n : Nat) : beValue (natToBEBytes n) = n := by
  induction n using Nat.strong_induction_on with
  | _ n ih =>
    by_cases h : n = 0
    · subst h
      rw [natToBEBytes_zero]
      rfl
    · rw [natToBEBytes_pos h, beValue_append_byte,
        ih (n / 256) (Nat.div_lt_self (by omega) (by norm_num))]
      omega

theorem natToBEBytes_bytes_lt {n : Nat} : ∀ x ∈ natToBEBytes n, x < 256 := by
  induction n using Nat.strong_induction_on with
  | _ n ih =>
    by_cases h : n = 0
    · subst h
      rw [natToBEBytes_zero]
      simp
    · rw [natToBEBytes_pos h]
      intro x hx
      rcases List.mem_append.mp hx with hl | hr
      · exact ih (n / 256) (Nat.div_lt_self (by omega) (by norm_num)) x hl
      · have : x = n % 256 := by simpa using hr
        omega

/-! ## Claims C3, C9, C10: field-value canonicalization -/

/-- C3: `toFieldBytes` canonicalizes non-negative integers to minimal
big-endian byte strings: zero gives the empty byte string, a positive integer
gives a non-empty big-endian representation with no leading zero byte whose
value is the integer, and 256 gives exactly the two bytes 0x01 0x00. -/
theorem claim3_int_canonical (n : Nat) (hn : 0 < n) :
    toFieldBytes (.int (0 : Int)) = .ok [] ∧
    toFieldBytes (.int (256 : Int)) = .ok [1, 0] ∧
    toFieldBytes (.int (n : Int)) = .ok (natToBEBytes n) ∧
    natToBEBytes n ≠ [] ∧
    (natToBEBytes n).head? ≠ some 0 ∧
    beValue (natToBEBytes n) = n ∧
    ∀ x ∈ natToBEBytes n, x < 256 :=
  ⟨rfl, rfl, toFieldBytes_int_pos n hn, natToBEBytes_ne_nil (by omega),
    natToBEBytes_head_ne_zero (by omega), beValue_natToBEBytes n,
    natToBEBytes_bytes_lt⟩

/-- Witness for C3 at `n = 256`. -/
theorem claim3_witness :
    toFieldBytes (.int (0 : Int)) = .ok [] ∧
    toFieldBytes (.int (256 : Int)) = .ok [1, 0] ∧
    toFieldBytes (.int ((256 : Nat) : Int)) = .ok (natToBEBytes 256) ∧
    natToBEBytes 256 ≠ [] ∧
    (natToBEBytes 256).head? ≠ some 0 ∧
    beValue (natToBEBytes 256) = 256 ∧
    ∀ x ∈ natToBEBytes 256, x < 256 :=
  claim3_int_canonical 256 (by norm_num)

/-- C9: `toFieldBytes` rejects every negative integer with the
"Negative values not supported" error, and rejects `undefined`/`null` with the
"Undefined value passed to toFieldBytes" error, instead of encoding them. -/
theorem claim9_negative_and_undefined_rejected (n : Int) (hn : n < 0) :
    toFieldBytes (.int n) = .error "Negative values not supported" ∧
    toFieldBytes .undef = .error "Undefined value passed to toFieldBytes" := by
  constructor
  · rw [toFieldBytes, if_neg (by omega), if_pos hn]
  · rfl

/-- Witness for C9 at `n = -1`. -/
theorem claim9_witness :
    toFieldBytes (.int (-1 : Int)) = .error "Negative values not supported" ∧
    toFieldBytes .undef = .error "Undefined value passed to toFieldBytes" :=
  claim9_negative_and_undefined_rejected (-1) (by norm_num)

theorem hexDigitVal_eq_zero {c : Char} (h : hexDigitVal c = some 0) : c = '0' := by
  unfold hexDigitVal at h
  split_ifs at h with h1 h2 h3
  · have hv := Option.some.inj h
    have h48 : c.toNat = 48 := by omega
    have hc : Char.ofNat c.toNat = Char.ofNat 48 := by rw [h48]
    rw [Char.ofNat_toNat] at hc
    rw [hc]
  · have hv := Option.some.inj h
    omega
  · have hv := Option.some.inj h
    omega

theorem parseHexPairs_eq_nil : ∀ {l : List Char}, parseHexPairs l = some [] → l = []
  | [], _ => rfl
  | [x], h => by simp [parseHexPairs] at h
  | a :: b :: rest, h => by
    rw [parseHexPairs] at h
    cases hva : hexDigitVal a <;> cases hvb : hexDigitVal b <;>
      cases hr : parseHexPairs rest <;> simp [hva, hvb, hr] at h

theorem parseHexPairs_eq_single : ∀ {l : List Char} {v : Nat}, parseHexPairs l = some [v] →
    ∃ a b va vb, l = [a, b] ∧ hexDigitVal a = some va ∧ hexDigitVal b = some vb ∧
      v = 16 * va + vb
  | [], _, h => by simp [parseHexPairs] at h
  | [x], _, h => by simp [parseHexPairs] at h
  | a :: b :: rest, v, h => by
    rw [parseHexPairs] at h
    cases hva : hexDigitVal a with
    | none => rw [hva] at h; simp at h
    | some va =>
      cases hvb : hexDigitVal b with
      | none => rw [hva, hvb] at h; simp at h
      | some vb =>
        cases hr : parseHexPairs rest with
        | none => rw [hva, hvb, hr] at h; simp at h
        | some r =>
          rw [hva, hvb, hr] at h
          simp at h
          obtain ⟨hv, hrest⟩ := h
          have hnil : rest = [] := parseHexPairs_eq_nil (by rw [hr, hrest])
          exact ⟨a, b, va, vb, by rw [hnil], hva, hvb, hv.symm⟩

theorem startsWith0x_data {s : String} (h : startsWith0x s = true) :
    ∃ r, s.data = '0' :: 'x' :: r := by
  unfold startsWith0x at h
  split at h
  · next heq => exact ⟨_, heq⟩
  · exact absurd h (by simp)

/-- C10 (amended): the strings `""`, `"0x"`, `"0x0"`, `"0x00"` all normalize to
the empty byte string, indistinguishable from the integer zero; and no
`0x`-prefixed string input can produce the single byte 0x00. -/
theorem claim10_zero_strings_empty (s : String) (h0x : startsWith0x s = true) :
    toFieldBytes (.str "") = .ok [] ∧
    toFieldBytes (.str "0x") = .ok [] ∧
    toFieldBytes (.str "0x0") = .ok [] ∧
    toFieldBytes (.str "0x00") = .ok [] ∧
    toFieldBytes (.int (0 : Int)) = .ok [] ∧
    toFieldBytes (.str s) ≠ .ok [0] := by
  refine ⟨rfl, rfl, rfl, rfl, rfl, ?_⟩
  intro hcontra
  rw [toFieldBytes] at hcontra
  by_cases hspec : s = "" ∨ s = "0x" ∨ s = "0x0" ∨ s = "0x00"
  · rw [if_pos hspec] at hcontra
    simp at hcontra
  · rw [if_neg hspec, if_pos h0x] at hcontra
    cases hhex : hexToBytes s with
    | none => rw [hhex] at hcontra; simp at hcontra
    | some bs =>
      rw [hhex] at hcontra
      have hbs : bs = [0] := by simpa using hcontra
      subst hbs
      obtain ⟨a, b, va, vb, hab, hva, hvb, hv⟩ := parseHexPairs_eq_single hhex
      have hva0 : va = 0 := by omega
      have hvb0 : vb = 0 := by omega
      subst hva0 hvb0
      have ha : a = '0' := hexDigitVal_eq_zero hva
      have hb : b = '0' := hexDigitVal_eq_zero hvb
      subst ha hb
      obtain ⟨r, hdata⟩ := startsWith0x_data h0x
      have hdrop : s.data.drop 2 = r := by rw [hdata]; rfl
      rw [hdrop] at hab
      have hr : r = ['0'] ∨ r = ['0', '0'] := by
        unfold padEvenChars at hab
        split at hab
        · left
          exact (List.cons.inj hab).2
        · right
          exact hab
      obtain ⟨d⟩ := s
      simp only [String.data] at hdata
      rcases hr with hr | hr <;> rw [hr] at hdata <;> subst hdata <;>
        simp at hspec

/-- C10 counterexample: the one-character string holding the NUL code point is
a string input that `toFieldBytes` encodes as exactly one literal 0x00 byte,
so the claim's "impossible to encode as one literal 0x00 byte via a string
input" fails for non-hex string inputs. -/
theorem claim10_counterexample :
    toFieldBytes (.str (String.mk [Char.ofNat 0])) = .ok [0] := by decide

/-- Witness for C10 (amended) at the hex string `"0x1234"`. -/
theorem claim10_witness :
    toFieldBytes (.str "") = .ok [] ∧
    toFieldBytes (.str "0x") = .ok [] ∧
    toFieldBytes (.str "0x0") = .ok [] ∧
    toFieldBytes (.str "0x00") = .ok [] ∧
    toFieldBytes (.int (0 : Int)) = .ok [] ∧
    toFieldBytes (.str "0x1234") ≠ .ok [0] :=
  claim10_zero_strings_empty "0x1234" (by decide)

/-! ## Claim C5: nonce normalization -/

/-- C5: `toNonceBytes` always yields exactly eight bytes: a missing, empty or
all-zero nonce gives eight zero bytes, a shorter hex input is left-padded with
zero bytes, an eight-byte input is returned unchanged, and a longer input is
truncated to its first eight bytes. -/
theorem claim5_toNonceBytes_eight_bytes (s : String) (bs : List Nat)
    (hne : ¬(s = "" ∨ s = "0x0000000000000000")) (hparse : hexToBytes s = some bs) :
    toNonceBytes none = .ok (List.replicate 8 0) ∧
    toNonceBytes (some "") = .ok (List.replicate 8 0) ∧
    toNonceBytes (some "0x0000000000000000") = .ok (List.replicate 8 0) ∧
    ∃ r, toNonceBytes (some s) = .ok r ∧ r.length = 8 ∧
      (bs.length = 8 → r = bs) ∧
      (bs.length < 8 → r = List.replicate (8 - bs.length) 0 ++ bs) ∧
      (8 < bs.length → r = bs.take 8) := by
  refine ⟨rfl, rfl, rfl, ?_⟩
  rw [toNonceBytes]
  rw [if_neg hne]
  simp only [hparse]
  by_cases h8 : bs.length = 8
  · rw [if_pos h8]
    exact ⟨bs, rfl, h8, fun _ => rfl, fun hc => absurd hc (by omega), fun hc => absurd hc (by omega)⟩
  · by_cases hlt : bs.length < 8
    · rw [if_neg h8, if_pos hlt]
      refine ⟨List.replicate (8 - bs.length) 0 ++ bs, rfl, ?_, fun hc => absurd hc h8,
        fun _ => rfl, fun hc => absurd hc (by omega)⟩
      rw [List.length_append, List.length_replicate]
      omega
    · rw [if_neg h8, if_neg hlt]
      refine ⟨bs.take 8, rfl, ?_, fun hc => absurd hc h8, fun hc => absurd hc hlt,
        fun _ => rfl⟩
      rw [List.length_take]
      omega

/-- Witness for C5 at the four-byte nonce `"0x12345678"`. -/
theorem claim5_witness :
    toNonceBytes none = .ok (List.replicate 8 0) ∧
    toNonceBytes (some "") = .ok (List.replicate 8 0) ∧
    toNonceBytes (some "0x0000000000000000") = .ok (List.replicate 8 0) ∧
    ∃ r, toNonceBytes (some "0x12345678") = .ok r ∧ r.length = 8 ∧
      (([18, 52, 86, 120] : List Nat).length = 8 → r = [18, 52, 86, 120]) ∧
      (([18, 52, 86, 120] : List Nat).length < 8 →
        r = List.replicate (8 - ([18, 52, 86, 120] : List Nat).length) 0 ++ [18, 52, 86, 120]) ∧
      (8 < ([18, 52, 86, 120] : List Nat).length → r = ([18, 52, 86, 120] : List Nat).take 8) :=
  claim5_toNonceBytes_eight_bytes "0x12345678" [18, 52, 86, 120] (by decide) (by decide)

/-! ## The candidate search -/

theorem includedBytesAux_isOk :
    ∀ (opts : List (String × FieldValue)) (mask i0 : Nat),
      (∀ f ∈ opts, (toFieldBytes f.2).isOk = true) →
      ∃ incl, includedBytesAux mask opts i0 = .ok incl
  | [], _, _, _ => ⟨[], rfl⟩
  | f :: rest, mask, i0, h => by
    have hf := h f (by simp)
    obtain ⟨b, hb⟩ : ∃ b, toFieldBytes f.2 = .ok b := by
      cases hx : toFieldBytes f.2 with
      | ok b => exact ⟨b, rfl⟩
      | error e => rw [hx] at hf; simp [Except.isOk, Except.toBool] at hf
    obtain ⟨incl, hincl⟩ :=
      includedBytesAux_isOk rest mask (i0 + 1) (fun g hg => h g (by simp [hg]))
    rw [includedBytesAux]
    by_cases hbit : mask &&& (1 <<< i0) ≠ 0
    · rw [if_pos hbit, hb, hincl]
      exact ⟨b :: incl, rfl⟩
    · rw [if_neg hbit]
      exact ⟨incl, hincl⟩

theorem includedBytes_isOk {opts : List (String × FieldValue)} (mask : Nat)
    (h : ∀ f ∈ opts, (toFieldBytes f.2).isOk = true) :
    ∃ incl, includedBytes opts mask = .ok incl :=
  includedBytesAux_isOk opts mask 0 h

theorem hitMask_true_iff {keccak : List Nat → List Nat} {target : List Nat}
    {base : List (List Nat)} {opts : List (String × FieldValue)} {m : Nat} :
    hitMask keccak target base opts m = true ↔
      ∃ incl, includedBytes opts m = .ok incl ∧ keccak (rlpList (base ++ incl)) = target := by
  unfold hitMask
  cases h : includedBytes opts m with
  | ok incl => simp [beq_iff_eq]
  | error e => simp

theorem hitMask_false_iff {keccak : List Nat → List Nat} {target : List Nat}
    {base : List (List Nat)} {opts : List (String × FieldValue)} {m : Nat} :
    hitMask keccak target base opts m = false ↔
      ∀ incl, includedBytes opts m = .ok incl → keccak (rlpList (base ++ incl)) ≠ target := by
  unfold hitMask
  cases h : includedBytes opts m with
  | ok incl => simp
  | error e => simp

theorem tryMasksGo_ok_none {keccak : List Nat → List Nat} {target : List Nat}
    {base : List (List Nat)} {opts : List (String × FieldValue)} :
    ∀ {l ats : List Nat},
      tryMasksGo keccak target base opts l = .ok (none, ats) →
      ats = l ∧ ∀ m ∈ l, hitMask keccak target base opts m = false
  | [], ats, h => by
    rw [tryMasksGo] at h
    simp at h
    subst h
    exact ⟨rfl, by simp⟩
  | m :: ms, ats, h => by
    rw [tryMasksGo] at h
    cases hincl : includedBytes opts m with
    | error e => simp [hincl] at h
    | ok incl =>
      simp only [hincl] at h
      by_cases hhit : keccak (rlpList (base ++ incl)) = target
      · rw [if_pos hhit] at h
        simp at h
      · rw [if_neg hhit] at h
        cases hrec : tryMasksGo keccak target base opts ms with
        | error e => simp [hrec] at h
        | ok pr =>
          obtain ⟨r, ats'⟩ := pr
          simp only [hrec] at h
          simp at h
          obtain ⟨hr, hats⟩ := h
          subst hr
          obtain ⟨hats', hmiss⟩ := tryMasksGo_ok_none hrec
          subst hats'
          refine ⟨hats.symm, ?_⟩
          intro x hx
          rcases List.mem_cons.mp hx with hxm | hxms
          · subst hxm
            rw [hitMask_false_iff]
            intro i hi
            rw [hincl] at hi
            rw [← Except.ok.inj hi]
            exact hhit
          · exact hmiss x hxms

theorem tryMasksGo_all_miss {keccak : List Nat → List Nat} {target : List Nat}
    {base : List (List Nat)} {opts : List (String × FieldValue)} :
    ∀ (l : List Nat),
      (∀ m ∈ l, ∃ incl, includedBytes opts m = .ok incl) →
      (∀ m ∈ l, hitMask keccak target base opts m = false) →
      tryMasksGo keccak target base opts l = .ok (none, l)
  | [], _, _ => rfl
  | m :: ms, hok, hmiss => by
    obtain ⟨incl, hincl⟩ := hok m (by simp)
    have hmf := hmiss m (by simp)
    rw [hitMask_false_iff] at hmf
    have hne := hmf incl hincl
    rw [tryMasksGo]
    simp only [hincl]
    rw [if_neg hne]
    simp only [tryMasksGo_all_miss ms (fun x hx => hok x (by simp [hx]))
      (fun x hx => hmiss x (by simp [hx]))]

theorem tryMasksGo_ok_some {keccak : List Nat → List Nat} {target : List Nat}
    {base : List (List Nat)} {opts : List (String × FieldValue)} :
    ∀ {l : List Nat} {bz ats : List Nat},
      tryMasksGo keccak target base opts l = .ok (some bz, ats) →
      keccak bz = target ∧
        ∃ m ∈ l, ∃ incl, includedBytes opts m = .ok incl ∧
          bz = rlpList (base ++ incl) ∧ hitMask keccak target base opts m = true
  | [], _, _, h => by rw [tryMasksGo] at h; simp at h
  | m :: ms, bz, ats, h => by
    rw [tryMasksGo] at h
    cases hincl : includedBytes opts m with
    | error e => simp [hincl] at h
    | ok incl =>
      simp only [hincl] at h
      by_cases hhit : keccak (rlpList (base ++ incl)) = target
      · rw [if_pos hhit] at h
        simp at h
        obtain ⟨hbz, -⟩ := h
        refine ⟨by rw [← hbz]; exact hhit, m, by simp, incl, hincl, hbz.symm, ?_⟩
        rw [hitMask_true_iff]
        exact ⟨incl, hincl, hhit⟩
      · rw [if_neg hhit] at h
        cases hrec : tryMasksGo keccak target base opts ms with
        | error e => simp [hrec] at h
        | ok pr =>
          obtain ⟨r, ats'⟩ := pr
          simp only [hrec] at h
          simp at h
          obtain ⟨hr, -⟩ := h
          subst hr
          obtain ⟨hk, m', hm', rest⟩ := tryMasksGo_ok_some hrec
          exact ⟨hk, m', by simp [hm'], rest⟩

theorem tryMasksGo_finds {keccak : List Nat → List Nat} {target : List Nat}
    {base : List (List Nat)} {opts : List (String × FieldValue)} :
    ∀ (l : List Nat) {p : Nat} {ip : List (List Nat)},
      (∀ m ∈ l, ∃ incl, includedBytes opts m = .ok incl) →
      (∀ m ∈ l, hitMask keccak target base opts m = true → m = p) →
      includedBytes opts p = .ok ip →
      hitMask keccak target base opts p = true →
      p ∈ l →
      ∃ ats, tryMasksGo keccak target base opts l = .ok (some (rlpList (base ++ ip)), ats)
  | [], _, _, _, _, _, _, hp => absurd hp (List.not_mem_nil _)
  | m :: ms, p, ip, hok, huniq, hip, hphit, hmem => by
    obtain ⟨incl, hincl⟩ := hok m (by simp)
    by_cases hhit : keccak (rlpList (base ++ incl)) = target
    · have hmp : m = p := huniq m (by simp) (by rw [hitMask_true_iff]; exact ⟨incl, hincl, hhit⟩)
      subst hmp
      have hii : incl = ip := by
        rw [hincl] at hip
        exact Except.ok.inj hip
      subst hii
      refine ⟨[m], ?_⟩
      rw [tryMasksGo]
      simp only [hincl]
      rw [if_pos hhit]
    · have hpne : p ≠ m := by
        intro he
        subst he
        rw [hitMask_true_iff] at hphit
        obtain ⟨i2, hi2, hk2⟩ := hphit
        rw [hincl] at hi2
        rw [← Except.ok.inj hi2] at hk2
        exact hhit hk2
      have hpm : p ∈ ms := by
        rcases List.mem_cons.mp hmem with he | hms
        · exact absurd he hpne
        · exact hms
      obtain ⟨ats, hats⟩ := tryMasksGo_finds ms (fun x hx => hok x (by simp [hx]))
        (fun x hx => huniq x (by simp [hx])) hip hphit hpm
      refine ⟨m :: ats, ?_⟩
      rw [tryMasksGo]
      simp only [hincl]
      rw [if_neg hhit]
      simp only [hats]

theorem priorityMasks_lt {opts : List (String × FieldValue)} :
    ∀ m ∈ priorityMasks opts, m < 2 ^ opts.length := by
  intro m hm
  unfold priorityMasks at hm
  rcases List.mem_append.mp hm with h | h
  · cases hbf : opts.any (fun f => f.1 == "baseFeePerGas") with
    | false => rw [hbf] at h; simp at h
    | true =>
      rw [hbf] at h
      simp at h
      subst h
      have hidx : opts.findIdx (fun f => f.1 == "baseFeePerGas") < opts.length :=
        List.findIdx_lt_length_of_exists (by simpa using List.any_eq_true.mp hbf)
      rw [Nat.one_shiftLeft]
      exact Nat.pow_lt_pow_right (by norm_num) hidx
  · by_cases hone : 1 < 2 ^ opts.length
    · rw [if_pos hone] at h
      simp at h
      subst h
      omega
    · rw [if_neg hone] at h
      simp at h

theorem mem_searchOrder {opts : List (String × FieldValue)} {m : Nat}
    (h : m < 2 ^ opts.length) : m ∈ searchOrder opts := by
  unfold searchOrder
  by_cases hp : m ∈ priorityMasks opts
  · exact List.mem_append_left _ hp
  · refine List.mem_append_right _ ?_
    rw [List.mem_filter]
    refine ⟨List.mem_range.mpr h, ?_⟩
    simpa using hp

theorem searchOrder_lt {opts : List (String × FieldValue)} :
    ∀ m ∈ searchOrder opts, m < 2 ^ opts.length := by
  intro m hm
  rcases List.mem_append.mp hm with h | h
  · exact priorityMasks_lt m h
  · exact List.mem_range.mp (List.mem_filter.mp h).1

/-! ## Claims C1, C2, C6: properties of the candidate search -/

/-- C1: round-trip — when the target hash is exactly the keccak hash of the
RLP encoding of the mandatory fields followed by pattern `p`'s optional fields
(`hitMask … p = true`), and no other inclusion pattern collides with the
target, the candidate search returns precisely that pattern's encoding. -/
theorem claim1_roundtrip (keccak : List Nat → List Nat) (target : List Nat)
    (base : List (List Nat)) (opts : List (String × FieldValue)) (p : Nat)
    (hp : p < 2 ^ opts.length)
    (hok : opts.all (fun f => (toFieldBytes f.2).isOk) = true)
    (hphit : hitMask keccak target base opts p = true)
    (huniq : ∀ m, m < 2 ^ opts.length → m ≠ p →
      hitMask keccak target base opts m = false) :
    ∃ incl ats, includedBytes opts p = .ok incl ∧
      keccak (rlpList (base ++ incl)) = target ∧
      bruteforceSearch keccak target base opts = .ok (some (rlpList (base ++ incl)), ats) := by
  have hfields : ∀ f ∈ opts, (toFieldBytes f.2).isOk = true := List.all_eq_true.mp hok
  obtain ⟨ip, hip, hkp⟩ := hitMask_true_iff.mp hphit
  have hokm : ∀ m ∈ searchOrder opts, ∃ incl, includedBytes opts m = .ok incl :=
    fun m _ => includedBytes_isOk m hfields
  have huniq' : ∀ m ∈ searchOrder opts, hitMask keccak target base opts m = true → m = p := by
    intro m hm hhit
    by_contra hne
    rw [huniq m (searchOrder_lt m hm) hne] at hhit
    exact Bool.false_ne_true hhit
  obtain ⟨ats, hats⟩ :=
    tryMasksGo_finds (searchOrder opts) hokm huniq' hip hphit (mem_searchOrder hp)
  exact ⟨ip, ats, hip, hkp, hats⟩

/-- Witness for C1: one optional field, the empty pattern `p = 0` matching. -/
theorem claim1_witness :
    ∃ incl ats, includedBytes [("baseFeePerGas", FieldValue.int 5)] 0 = .ok incl ∧
      (fun l : List Nat => l) (rlpList ([] ++ incl)) = [192] ∧
      bruteforceSearch (fun l => l) [192] [] [("baseFeePerGas", FieldValue.int 5)] =
        .ok (some (rlpList ([] ++ incl)), ats) :=
  claim1_roundtrip (fun l => l) [192] [] [("baseFeePerGas", FieldValue.int 5)] 0
    (by decide) (by decide) (by decide) (by decide)

/-- C2: the search returns the not-found signal exactly when none of the
`2 ^ k` inclusion patterns hits the target; a returned encoding always hashes
to the target (no false positive); and a not-found outcome is reached only
after every one of the `2 ^ k` patterns has been attempted. -/
theorem claim2_exhaustive_not_found (keccak : List Nat → List Nat) (target : List Nat)
    (base : List (List Nat)) (opts : List (String × FieldValue))
    (hok : opts.all (fun f => (toFieldBytes f.2).isOk) = true) :
    ((∃ ats, bruteforceSearch keccak target base opts = .ok (none, ats)) ↔
      ∀ m, m < 2 ^ opts.length → hitMask keccak target base opts m = false) ∧
    (∀ bz ats, bruteforceSearch keccak target base opts = .ok (some bz, ats) →
      keccak bz = target) ∧
    (∀ ats, bruteforceSearch keccak target base opts = .ok (none, ats) →
      ∀ m, m < 2 ^ opts.length → m ∈ ats) := by
  have hfields : ∀ f ∈ opts, (toFieldBytes f.2).isOk = true := List.all_eq_true.mp hok
  refine ⟨⟨?_, ?_⟩, ?_, ?_⟩
  · rintro ⟨ats, hats⟩ m hm
    exact (tryMasksGo_ok_none hats).2 m (mem_searchOrder hm)
  · intro hmiss
    exact ⟨searchOrder opts,
      tryMasksGo_all_miss (searchOrder opts) (fun m _ => includedBytes_isOk m hfields)
        (fun m hm => hmiss m (searchOrder_lt m hm))⟩
  · intro bz ats hats
    exact (tryMasksGo_ok_some hats).1
  · intro ats hats m hm
    obtain ⟨hatseq, -⟩ := tryMasksGo_ok_none hats
    rw [hatseq]
    exact mem_searchOrder hm

/-- Witness for C2: a fabricated target no pattern reproduces gives not-found. -/
theorem claim2_witness :
    ∃ ats, bruteforceSearch (fun l => l) [99] [] [("baseFeePerGas", FieldValue.int 5)] =
      .ok (none, ats) :=
  (claim2_exhaustive_not_found (fun l => l) [99] [] [("baseFeePerGas", FieldValue.int 5)]
    (by decide)).1.mpr (by decide)

/-- C6: when `baseFeePerGas` is available and the base-fee-only pattern is the
matching one, the search succeeds on its very first attempted candidate (the
base-fee-only priority mask), so on the first or second attempt, never after
exhaustive enumeration. -/
theorem claim6_fast_path (keccak : List Nat → List Nat) (target : List Nat)
    (base : List (List Nat)) (opts : List (String × FieldValue))
    (hbf : opts.any (fun f => f.1 == "baseFeePerGas") = true)
    (hhit : hitMask keccak target base opts
      (1 <<< opts.findIdx (fun f => f.1 == "baseFeePerGas")) = true) :
    ∃ incl, includedBytes opts (1 <<< opts.findIdx (fun f => f.1 == "baseFeePerGas")) =
        .ok incl ∧
      bruteforceSearch keccak target base opts =
        .ok (some (rlpList (base ++ incl)),
          [1 <<< opts.findIdx (fun f => f.1 == "baseFeePerGas")]) ∧
      ([1 <<< opts.findIdx (fun f => f.1 == "baseFeePerGas")] : List Nat).length ≤ 2 := by
  obtain ⟨incl, hincl, hk⟩ := hitMask_true_iff.mp hhit
  refine ⟨incl, hincl, ?_, by simp⟩
  unfold bruteforceSearch searchOrder priorityMasks
  rw [if_pos hbf]
  rw [List.cons_append, List.cons_append]
  rw [tryMasksGo]
  simp only [hincl]
  rw [if_pos hk]

/-- Witness for C6: single optional base-fee field whose pattern matches. -/
theorem claim6_witness :
    ∃ incl, includedBytes [("baseFeePerGas", FieldValue.int 5)]
        (1 <<< List.findIdx (fun f => f.1 == "baseFeePerGas")
          [("baseFeePerGas", FieldValue.int 5)]) = .ok incl ∧
      bruteforceSearch (fun l => l) [193, 5] [] [("baseFeePerGas", FieldValue.int 5)] =
        .ok (some (rlpList ([] ++ incl)),
          [1 <<< List.findIdx (fun f => f.1 == "baseFeePerGas")
            [("baseFeePerGas", FieldValue.int 5)]]) ∧
      ([1 <<< List.findIdx (fun f => f.1 == "baseFeePerGas")
        [("baseFeePerGas", FieldValue.int 5)]] : List Nat).length ≤ 2 :=
  claim6_fast_path (fun l => l) [193, 5] [] [("baseFeePerGas", FieldValue.int 5)]
    (by decide) (by decide)

/-! ## Claims C7, C8, C4: determinism, result contents, bloom check -/

/-- A 256-byte all-zero logs bloom as a hex string. -/
def bloom256Hex : String := String.mk ('0' :: 'x' :: List.replicate 512 '0')

/-- A block whose logs bloom parses to a single byte instead of 256. -/
def sampleBlockBadBloom : BlockData :=
  ⟨[192], .bytes [], none, none, none, .bytes [], .bytes [], .bytes [], some "0x00", none,
    .int 0, .int 0, .int 0, .int 0, none, none, none, none, none, none, none, none, none⟩

/-- A block whose logs bloom parses to exactly 256 bytes. -/
def sampleBlockGoodBloom : BlockData :=
  ⟨[192], .bytes [], none, none, none, .bytes [], .bytes [], .bytes [], some bloom256Hex, none,
    .int 0, .int 0, .int 0, .int 0, none, none, none, none, none, none, none, none, none⟩

/-- C7: the reconstruction search is a pure, deterministic function of the hash
function and the fetched block data — two runs on equal inputs produce equal
results, both for the full pipeline and for the returned value. -/
theorem claim7_deterministic (k1 k2 : List Nat → List Nat) (b1 b2 : BlockData)
    (hk : k1 = k2) (hb : b1 = b2) :
    bruteforceRLPFull k1 b1 = bruteforceRLPFull k2 b2 ∧
    bruteforceRLP k1 b1 = bruteforceRLP k2 b2 := by
  subst hk hb
  exact ⟨rfl, rfl⟩

/-- Witness for C7: two runs on the same sample block agree. -/
theorem claim7_witness :
    bruteforceRLPFull (fun l => l) sampleBlockBadBloom =
      bruteforceRLPFull (fun l => l) sampleBlockBadBloom ∧
    bruteforceRLP (fun l => l) sampleBlockBadBloom =
      bruteforceRLP (fun l => l) sampleBlockBadBloom :=
  claim7_deterministic (fun l => l) (fun l => l) sampleBlockBadBloom sampleBlockBadBloom rfl rfl

/-- C8 (amended): on success the search's returned value is the exact RLP
encoding hashing to the target, obtained from some attempted inclusion
pattern; the identity of the included fields is determined by that pattern
(and only logged by the script), not part of the returned value. -/
theorem claim8_success_result (keccak : List Nat → List Nat) (target : List Nat)
    (base : List (List Nat)) (opts : List (String × FieldValue))
    (bz ats : List Nat)
    (h : bruteforceSearch keccak target base opts = .ok (some bz, ats)) :
    keccak bz = target ∧
    ∃ m ∈ searchOrder opts, ∃ incl, includedBytes opts m = .ok incl ∧
      bz = rlpList (base ++ incl) ∧ hitMask keccak target base opts m = true :=
  tryMasksGo_ok_some h

/-- C8 counterexample: two searches over distinct optional-field names return
the very same value, so the returned result of `bruteforceRLP` cannot comprise
the identity of the included optional fields (reported only on the console). -/
theorem claim8_counterexample :
    bruteforceSearch (fun l => l) [193, 5] [] [("baseFeePerGas", FieldValue.int 5)] =
      bruteforceSearch (fun l => l) [193, 5] [] [("withdrawalsRoot", FieldValue.int 5)] ∧
    bruteforceSearch (fun l => l) [193, 5] [] [("baseFeePerGas", FieldValue.int 5)] =
      .ok (some [193, 5], [1]) ∧
    includedNames [("baseFeePerGas", FieldValue.int 5)] 1 ≠
      includedNames [("withdrawalsRoot", FieldValue.int 5)] 1 := by
  decide

/-- Witness for C8 (amended) at a concrete successful search. -/
theorem claim8_witness :
    (fun l : List Nat => l) [193, 5] = [193, 5] ∧
    ∃ m ∈ searchOrder [("baseFeePerGas", FieldValue.int 5)], ∃ incl,
      includedBytes [("baseFeePerGas", FieldValue.int 5)] m = .ok incl ∧
      [193, 5] = rlpList ([] ++ incl) ∧
      hitMask (fun l => l) [193, 5] [] [("baseFeePerGas", FieldValue.int 5)] m = true :=
  claim8_success_result (fun l => l) [193, 5] [] [("baseFeePerGas", FieldValue.int 5)]
    [193, 5] [1] (by decide)

/-- C4: a present, non-empty logs bloom that parses to a byte length other
than 256 makes `bruteforceRLP` raise a hard error before any candidate is
encoded or hashed (the result is this error for every hash function, so the
search loop is never entered); a 256-byte bloom is accepted and the run
proceeds to the candidate search. -/
theorem claim4_bloom_length_check (keccak : List Nat → List Nat) (b : BlockData)
    (s : String) (bs : List Nat)
    (hbloom : b.logsBloom = some s) (hne : s ≠ "")
    (hparse : hexToBytes (stripWs s) = some bs) :
    (bs.length ≠ 256 → bruteforceRLPFull keccak b =
      .error ("Invalid logsBloom length: " ++ toString bs.length ++ ", expected 256")) ∧
    (bs.length = 256 → bruteforceRLPFull keccak b =
      match mkBaseFields b (some (stripWs s)) with
      | .error e => .error e
      | .ok base => bruteforceSearch keccak b.hash base (availableOptionalFields b)) := by
  constructor
  · intro hlen
    have hpb : processBloom b =
        .error ("Invalid logsBloom length: " ++ toString bs.length ++ ", expected 256") := by
      unfold processBloom
      simp only [hbloom]
      rw [if_neg hne]
      simp only [hparse]
      rw [if_pos hlen]
    unfold bruteforceRLPFull
    simp only [hpb]
  · intro hlen
    have hpb : processBloom b = .ok (some (stripWs s)) := by
      unfold processBloom
      simp only [hbloom]
      rw [if_neg hne]
      simp only [hparse]
      rw [if_neg (show ¬bs.length ≠ 256 by omega)]
    unfold bruteforceRLPFull
    simp only [hpb]

set_option maxRecDepth 100000 in
/-- Witness for C4: the one-byte bloom `"0x00"` is rejected with the length
error, and the 256-byte bloom is accepted and reaches the candidate search. -/
theorem claim4_witness :
    bruteforceRLPFull (fun l => l) sampleBlockBadBloom =
      .error ("Invalid logsBloom length: " ++ toString ([0] : List Nat).length ++
        ", expected 256") ∧
    bruteforceRLPFull (fun l => l) sampleBlockGoodBloom =
      match mkBaseFields sampleBlockGoodBloom (some (stripWs bloom256Hex)) with
      | .error e => .error e
      | .ok base => bruteforceSearch (fun l => l) sampleBlockGoodBloom.hash base
          (availableOptionalFields sampleBlockGoodBloom) :=
  ⟨(claim4_bloom_length_check (fun l => l) sampleBlockBadBloom "0x00" [0]
      rfl (by decide) (by decide)).1 (by decide),
    (claim4_bloom_length_check (fun l => l) sampleBlockGoodBloom bloom256Hex
      (List.replicate 256 0) rfl (by decide) (by decide)).2 (by decide)⟩

end Solve12
